import Mathlib

set_option maxRecDepth 4000

/-!
Verification of the `ezcmd` library (`src/lib.rs`): a convenience wrapper
(`EasyCommand`) around child-process execution, with three execution modes
(`spawn_and_wait`, `run`, `output`) and a layered error model that attaches a
shell-quoted rendering of the invocation to every failure.

Modelling conventions:
* Rust `String`/`str` values are modelled as lists of Unicode code points
  (`Str := List Nat`); `OsString` values as lists of bytes (`OsStr := List Nat`).
* The external collaborators (the `shell_words` quote/join/split primitive, the
  lossy UTF-8 conversion of `OsStr::to_string_lossy`, and the OS process
  primitives `spawn`/`wait`/`output`) are not part of the repository source;
  they are modelled from the spec's collaborator contracts, with the OS
  primitives abstracted as an outcome environment (`ProcWorld`).
* Logging (the `log` crate calls) has no effect on any returned value and is
  omitted from the model.
-/

/-- A Rust string, as its sequence of Unicode code points. -/
abbrev Str := List Nat

/-- An OS string (`OsString`), as its sequence of bytes. -/
abbrev OsStr := List Nat

/-! ## Shell-word joining and splitting

Modelled from the spec: the `shell_words` crate is an external collaborator
whose contract is "given a sequence of string tokens, produces a single string
where each token is quoted/escaped as needed such that a compliant shell-word
tokenizer would recover the original tokens, and tokens are joined with single
spaces". The model below follows POSIX shell-word semantics: `quoteWord` wraps
a token containing shell-special characters in single quotes (escaping single
quotes as quote-backslash-quote-quote), and `shellSplit` is the standard
shell-word tokenizer state machine over delimiter/backslash/unquoted/
single-quoted/double-quoted/comment states. -/

/-- Code point of the single-quote character. -/
def sqChar : Nat := 39

/-- Code point of the double-quote character. -/
def dqChar : Nat := 34

/-- Code point of the backslash character. -/
def bsChar : Nat := 92

/-- Code point of the space character. -/
def spChar : Nat := 32

/-- Code point of the tab character. -/
def tabChar : Nat := 9

/-- Code point of the newline character. -/
def nlChar : Nat := 10

/-- Code point of the number-sign (comment) character. -/
def hashChar : Nat := 35

/-- Code point of the backtick character. -/
def btChar : Nat := 96

/-- Code point of the dollar-sign character. -/
def dollarChar : Nat := 36

/-- Characters that force a token to be single-quoted when joined:
vertical bar, ampersand, semicolon, angle brackets, parentheses, dollar,
backtick, backslash, double quote, single quote, space, tab, carriage return,
newline, star, question mark, open bracket, number sign, tilde, equals,
percent. -/
def mustQuote (c : Nat) : Bool :=
  [124, 38, 59, 60, 62, 40, 41, 36, 96, 92, 34, 39, 32, 9, 13, 10,
   42, 63, 91, 35, 126, 61, 37].contains c

/-- Escape of one character inside a single-quoted region: a single quote
becomes quote, backslash, quote, quote; everything else is itself. -/
def escSq (c : Nat) : Str :=
  if c = sqChar then [sqChar, bsChar, sqChar, sqChar] else [c]

/-- Escape every character of a token body for a single-quoted region. -/
def escBody : Str → Str
  | [] => []
  | c :: cs => escSq c ++ escBody cs

/-- Shell-quote one token: the empty token renders as two single quotes; a
token containing a special character is wrapped in single quotes with its
single quotes escaped; any other token is left as is. -/
def quoteWord (w : Str) : Str :=
  if w = [] then [sqChar, sqChar]
  else if w.any mustQuote then [sqChar] ++ escBody w ++ [sqChar]
  else w

/-- Join a sequence of tokens into one shell-quoted string, separated by
single spaces. -/
def shellJoin : List Str → Str
  | [] => []
  | [w] => quoteWord w
  | w :: w2 :: ws => quoteWord w ++ [spChar] ++ shellJoin (w2 :: ws)

/-- The states of the shell-word tokenizer. -/
inductive SpState
  | delim
  | afterBs
  | unquoted
  | unquotedBs
  | singleQuoted
  | doubleQuoted
  | doubleQuotedBs
  | inComment
deriving DecidableEq, Repr

/-- The shell-word tokenizer loop: current state, word accumulated so far,
words emitted so far, remaining input. Returns `none` on unterminated
quotation. -/
def shellSplitLoop : SpState → Str → List Str → Str → Option (List Str)
  | .delim, _cur, acc, [] => some acc
  | .inComment, _cur, acc, [] => some acc
  | .unquoted, cur, acc, [] => some (acc ++ [cur])
  | .afterBs, cur, acc, [] => some (acc ++ [cur ++ [bsChar]])
  | .unquotedBs, cur, acc, [] => some (acc ++ [cur ++ [bsChar]])
  | .singleQuoted, _cur, _acc, [] => none
  | .doubleQuoted, _cur, _acc, [] => none
  | .doubleQuotedBs, _cur, _acc, [] => none
  | .delim, cur, acc, c :: rest =>
    if c = sqChar then shellSplitLoop .singleQuoted cur acc rest
    else if c = dqChar then shellSplitLoop .doubleQuoted cur acc rest
    else if c = bsChar then shellSplitLoop .afterBs cur acc rest
    else if c = spChar ∨ c = tabChar ∨ c = nlChar then shellSplitLoop .delim cur acc rest
    else if c = hashChar then shellSplitLoop .inComment cur acc rest
    else shellSplitLoop .unquoted (cur ++ [c]) acc rest
  | .afterBs, cur, acc, c :: rest =>
    if c = nlChar then shellSplitLoop .delim cur acc rest
    else shellSplitLoop .unquoted (cur ++ [c]) acc rest
  | .unquoted, cur, acc, c :: rest =>
    if c = sqChar then shellSplitLoop .singleQuoted cur acc rest
    else if c = dqChar then shellSplitLoop .doubleQuoted cur acc rest
    else if c = bsChar then shellSplitLoop .unquotedBs cur acc rest
    else if c = spChar ∨ c = tabChar ∨ c = nlChar then
      shellSplitLoop .delim [] (acc ++ [cur]) rest
    else shellSplitLoop .unquoted (cur ++ [c]) acc rest
  | .unquotedBs, cur, acc, c :: rest =>
    if c = nlChar then shellSplitLoop .unquoted cur acc rest
    else shellSplitLoop .unquoted (cur ++ [c]) acc rest
  | .singleQuoted, cur, acc, c :: rest =>
    if c = sqChar then shellSplitLoop .unquoted cur acc rest
    else shellSplitLoop .singleQuoted (cur ++ [c]) acc rest
  | .doubleQuoted, cur, acc, c :: rest =>
    if c = dqChar then shellSplitLoop .unquoted cur acc rest
    else if c = bsChar then shellSplitLoop .doubleQuotedBs cur acc rest
    else shellSplitLoop .doubleQuoted (cur ++ [c]) acc rest
  | .doubleQuotedBs, cur, acc, c :: rest =>
    if c = nlChar then shellSplitLoop .doubleQuoted cur acc rest
    else if c = dollarChar ∨ c = btChar ∨ c = dqChar ∨ c = bsChar then
      shellSplitLoop .doubleQuoted (cur ++ [c]) acc rest
    else shellSplitLoop .doubleQuoted (cur ++ [bsChar, c]) acc rest
  | .inComment, cur, acc, c :: rest =>
    if c = nlChar then shellSplitLoop .delim cur acc rest
    else shellSplitLoop .inComment cur acc rest

/-- Tokenize a shell-quoted string back into its words. -/
def shellSplit (s : Str) : Option (List Str) :=
  shellSplitLoop .delim [] [] s

example : shellSplit (shellJoin [[99, 112], [97, 32, 98]]) = some [[99, 112], [97, 32, 98]] := by
  decide

example : shellSplit (shellJoin [[99], [97, 39, 98], []]) = some [[99], [97, 39, 98], []] := by
  decide

/-! ### Round trip: splitting a joined command line recovers the tokens -/

theorem mustQuote_false_ne {c : Nat} (h : mustQuote c = false) :
    c ≠ sqChar ∧ c ≠ dqChar ∧ c ≠ bsChar ∧ c ≠ spChar ∧ c ≠ tabChar ∧
      c ≠ nlChar ∧ c ≠ hashChar := by
  simp [mustQuote] at h
  simp only [sqChar, dqChar, bsChar, spChar, tabChar, nlChar, hashChar]
  tauto

theorem step_delim_sq (cur : Str) (acc : List Str) (rest : Str) :
    shellSplitLoop .delim cur acc (sqChar :: rest)
      = shellSplitLoop .singleQuoted cur acc rest := rfl

theorem step_delim_other (cur : Str) (acc : List Str) (rest : Str) {c : Nat}
    (h1 : c ≠ sqChar) (h2 : c ≠ dqChar) (h3 : c ≠ bsChar) (h4 : c ≠ spChar)
    (h5 : c ≠ tabChar) (h6 : c ≠ nlChar) (h7 : c ≠ hashChar) :
    shellSplitLoop .delim cur acc (c :: rest)
      = shellSplitLoop .unquoted (cur ++ [c]) acc rest := by
  rw [shellSplitLoop]
  rw [if_neg h1, if_neg h2, if_neg h3, if_neg (by tauto), if_neg h7]

theorem step_unquoted_sq (cur : Str) (acc : List Str) (rest : Str) :
    shellSplitLoop .unquoted cur acc (sqChar :: rest)
      = shellSplitLoop .singleQuoted cur acc rest := rfl

theorem step_unquoted_bs (cur : Str) (acc : List Str) (rest : Str) :
    shellSplitLoop .unquoted cur acc (bsChar :: rest)
      = shellSplitLoop .unquotedBs cur acc rest := rfl

theorem step_unquoted_sp (cur : Str) (acc : List Str) (rest : Str) :
    shellSplitLoop .unquoted cur acc (spChar :: rest)
      = shellSplitLoop .delim [] (acc ++ [cur]) rest := rfl

theorem step_unquoted_other (cur : Str) (acc : List Str) (rest : Str) {c : Nat}
    (h1 : c ≠ sqChar) (h2 : c ≠ dqChar) (h3 : c ≠ bsChar) (h4 : c ≠ spChar)
    (h5 : c ≠ tabChar) (h6 : c ≠ nlChar) :
    shellSplitLoop .unquoted cur acc (c :: rest)
      = shellSplitLoop .unquoted (cur ++ [c]) acc rest := by
  rw [shellSplitLoop]
  rw [if_neg h1, if_neg h2, if_neg h3, if_neg (by tauto)]

theorem step_unquotedBs_sq (cur : Str) (acc : List Str) (rest : Str) :
    shellSplitLoop .unquotedBs cur acc (sqChar :: rest)
      = shellSplitLoop .unquoted (cur ++ [sqChar]) acc rest := rfl

theorem step_sq_close (cur : Str) (acc : List Str) (rest : Str) :
    shellSplitLoop .singleQuoted cur acc (sqChar :: rest)
      = shellSplitLoop .unquoted cur acc rest := rfl

theorem step_sq_body (cur : Str) (acc : List Str) (rest : Str) {c : Nat} (hc : c ≠ sqChar) :
    shellSplitLoop .singleQuoted cur acc (c :: rest)
      = shellSplitLoop .singleQuoted (cur ++ [c]) acc rest := by
  simp only [shellSplitLoop, if_neg hc]

/-- Feeding a run of non-special characters to the tokenizer in the unquoted
state appends them to the current word. -/
theorem splitLoop_unquoted_safe (v : Str) (hv : ∀ c ∈ v, mustQuote c = false)
    (cur : Str) (acc : List Str) (rest : Str) :
    shellSplitLoop .unquoted cur acc (v ++ rest)
      = shellSplitLoop .unquoted (cur ++ v) acc rest := by
  induction v generalizing cur with
  | nil => simp
  | cons c v ih =>
    obtain ⟨h1, h2, h3, h4, h5, h6, _⟩ := mustQuote_false_ne (hv c (by simp))
    rw [List.cons_append, step_unquoted_other cur acc (v ++ rest) h1 h2 h3 h4 h5 h6]
    rw [ih (fun x hx => hv x (by simp [hx]))]
    simp

/-- Feeding the escaped body of a word followed by a closing quote to the
tokenizer in the single-quoted state appends the word to the current word and
returns to the unquoted state. -/
theorem splitLoop_singleQuoted_body (w : Str) (cur : Str) (acc : List Str) (rest : Str) :
    shellSplitLoop .singleQuoted cur acc (escBody w ++ sqChar :: rest)
      = shellSplitLoop .unquoted (cur ++ w) acc rest := by
  induction w generalizing cur with
  | nil => rw [escBody, List.nil_append, step_sq_close, List.append_nil]
  | cons c w ih =>
    by_cases hc : c = sqChar
    · subst hc
      rw [escBody, escSq, if_pos rfl]
      simp only [List.cons_append, List.append_assoc, List.nil_append]
      rw [step_sq_close, step_unquoted_bs, step_unquotedBs_sq, step_unquoted_sq, ih]
      simp
    · rw [escBody, escSq, if_neg hc]
      simp only [List.cons_append, List.append_assoc, List.nil_append]
      rw [step_sq_body cur acc _ hc, ih]
      simp

/-- Feeding one quoted word to the tokenizer in the delimiter state appends
that word to the current word and leaves the tokenizer in the unquoted
state. -/
theorem splitLoop_quoteWord (w : Str) (cur : Str) (acc : List Str) (rest : Str) :
    shellSplitLoop .delim cur acc (quoteWord w ++ rest)
      = shellSplitLoop .unquoted (cur ++ w) acc rest := by
  by_cases h0 : w = []
  · subst h0
    rw [quoteWord, if_pos rfl, List.cons_append, List.cons_append, List.nil_append,
      step_delim_sq, step_sq_close, List.append_nil]
  · by_cases h1 : w.any mustQuote
    · rw [quoteWord, if_neg h0, if_pos h1]
      simp only [List.cons_append, List.append_assoc, List.nil_append, List.singleton_append]
      rw [step_delim_sq, splitLoop_singleQuoted_body]
    · have hall : ∀ c ∈ w, mustQuote c = false := by
        intro c hc
        by_contra hne
        exact h1 (List.any_eq_true.mpr ⟨c, hc, by revert hne; cases mustQuote c <;> simp⟩)
      obtain ⟨c, v, rfl⟩ : ∃ c v, w = c :: v := by
        cases w with
        | nil => exact absurd rfl h0
        | cons c v => exact ⟨c, v, rfl⟩
      obtain ⟨g1, g2, g3, g4, g5, g6, g7⟩ := mustQuote_false_ne (hall c (by simp))
      rw [quoteWord, if_neg h0, if_neg (by simp [h1]), List.cons_append,
        step_delim_other cur acc (v ++ rest) g1 g2 g3 g4 g5 g6 g7,
        splitLoop_unquoted_safe v (fun x hx => hall x (by simp [hx]))]
      simp

/-- Splitting the join of any token sequence, starting in the delimiter state,
emits exactly those tokens after any previously emitted ones. -/
theorem splitLoop_shellJoin (ws : List Str) (acc : List Str) :
    shellSplitLoop .delim [] acc (shellJoin ws) = some (acc ++ ws) := by
  induction ws generalizing acc with
  | nil => simp [shellJoin, shellSplitLoop]
  | cons w ws ih =>
    cases ws with
    | nil =>
      rw [shellJoin, ← List.append_nil (quoteWord w), splitLoop_quoteWord]
      simp [shellSplitLoop]
    | cons w2 ws2 =>
      rw [shellJoin, List.append_assoc, splitLoop_quoteWord, List.nil_append,
        List.singleton_append, step_unquoted_sp, ih]
      simp

/-- Re-tokenizing a shell-joined token sequence yields exactly the original
tokens. -/
theorem shellSplit_shellJoin (ws : List Str) : shellSplit (shellJoin ws) = some ws := by
  rw [shellSplit, splitLoop_shellJoin]
  simp

/-! ## Lossy UTF-8 decoding

Modelled from the spec and the documented behaviour of `OsStr::to_string_lossy`:
an OS string's bytes are decoded as UTF-8, with ill-formed sequences replaced
by the Unicode replacement character U+FFFD. The decoder is a streaming
acceptor of well-formed UTF-8 (rejecting overlong forms, surrogates and code
points beyond U+10FFFF): after a leading byte it expects `need` more
continuation bytes, with the admissible range of the next byte tracked as
`lo`/`hi`. The lossy variant substitutes replacement characters for rejected
bytes (the exact number of replacement characters per ill-formed sequence is
an abstraction choice; no property proved here depends on it), while the
strict variant fails. -/

/-- The Unicode replacement character U+FFFD. -/
def replChar : Nat := 65533

/-- A Unicode scalar value: any code point below U+110000 except the
surrogate range. -/
def ValidScalar (cp : Nat) : Prop :=
  cp < 55296 ∨ (57344 ≤ cp ∧ cp < 1114112)

instance (cp : Nat) : Decidable (ValidScalar cp) := by
  unfold ValidScalar
  infer_instance

/-- Decoder state: either at a sequence boundary, or inside a multi-byte
sequence expecting `need` more bytes, having accumulated `acc`, with the next
byte constrained to `lo ≤ b ≤ hi`. -/
inductive U8State
  | start
  | expect (need acc lo hi : Nat)
deriving DecidableEq, Repr

/-- Process one byte at a sequence boundary: the characters it emits and the
state it moves to. Leading-byte ranges follow the UTF-8 well-formedness table:
C2..DF, E0 (next A0..BF), E1..EC, ED (next 80..9F), EE..EF, F0 (next 90..BF),
F1..F3, F4 (next 80..8F); anything else is ill-formed. -/
def u8Start (b : Nat) : Str × U8State :=
  if b < 128 then ([b], .start)
  else if 194 ≤ b ∧ b ≤ 223 then ([], .expect 1 (b - 192) 128 191)
  else if b = 224 then ([], .expect 2 0 160 191)
  else if 225 ≤ b ∧ b ≤ 236 then ([], .expect 2 (b - 224) 128 191)
  else if b = 237 then ([], .expect 2 13 128 159)
  else if 238 ≤ b ∧ b ≤ 239 then ([], .expect 2 (b - 224) 128 191)
  else if b = 240 then ([], .expect 3 0 144 191)
  else if 241 ≤ b ∧ b ≤ 243 then ([], .expect 3 (b - 240) 128 191)
  else if b = 244 then ([], .expect 3 4 128 143)
  else ([replChar], .start)

/-- The lossy decoding loop. An ill-formed byte inside a sequence yields a
replacement character and is then reconsidered as a leading byte. -/
def u8Loop : U8State → List Nat → Str
  | .start, [] => []
  | .expect _ _ _ _, [] => [replChar]
  | .start, b :: rest => (u8Start b).1 ++ u8Loop (u8Start b).2 rest
  | .expect need acc lo hi, b :: rest =>
    if lo ≤ b ∧ b ≤ hi then
      if need ≤ 1 then (acc * 64 + (b - 128)) :: u8Loop .start rest
      else u8Loop (.expect (need - 1) (acc * 64 + (b - 128)) 128 191) rest
    else replChar :: ((u8Start b).1 ++ u8Loop (u8Start b).2 rest)

/-- Lossy UTF-8 decoding of a byte sequence. -/
def utf8DecodeLossy (bs : List Nat) : Str := u8Loop .start bs

/-- The strict decoding loop: fails on the first ill-formed byte. -/
def u8LoopStrict : U8State → List Nat → Option Str
  | .start, [] => some []
  | .expect _ _ _ _, [] => none
  | .start, b :: rest =>
    if b < 128 then (u8LoopStrict .start rest).map (fun s => b :: s)
    else if 194 ≤ b ∧ b ≤ 223 then u8LoopStrict (.expect 1 (b - 192) 128 191) rest
    else if b = 224 then u8LoopStrict (.expect 2 0 160 191) rest
    else if 225 ≤ b ∧ b ≤ 236 then u8LoopStrict (.expect 2 (b - 224) 128 191) rest
    else if b = 237 then u8LoopStrict (.expect 2 13 128 159) rest
    else if 238 ≤ b ∧ b ≤ 239 then u8LoopStrict (.expect 2 (b - 224) 128 191) rest
    else if b = 240 then u8LoopStrict (.expect 3 0 144 191) rest
    else if 241 ≤ b ∧ b ≤ 243 then u8LoopStrict (.expect 3 (b - 240) 128 191) rest
    else if b = 244 then u8LoopStrict (.expect 3 4 128 143) rest
    else none
  | .expect need acc lo hi, b :: rest =>
    if lo ≤ b ∧ b ≤ hi then
      if need ≤ 1 then (u8LoopStrict .start rest).map (fun s => (acc * 64 + (b - 128)) :: s)
      else u8LoopStrict (.expect (need - 1) (acc * 64 + (b - 128)) 128 191) rest
    else none

/-- Strict UTF-8 decoding of a byte sequence. -/
def utf8DecodeStrict (bs : List Nat) : Option Str := u8LoopStrict .start bs

/-- Whether a byte sequence is well-formed UTF-8. -/
def validUtf8 (bs : List Nat) : Bool := (utf8DecodeStrict bs).isSome

/-- UTF-8 encoding of one Unicode scalar value. -/
def utf8EncodeChar (cp : Nat) : List Nat :=
  if cp < 128 then [cp]
  else if cp < 2048 then [192 + cp / 64, 128 + cp % 64]
  else if cp < 65536 then [224 + cp / 4096, 128 + cp / 64 % 64, 128 + cp % 64]
  else [240 + cp / 262144, 128 + cp / 4096 % 64, 128 + cp / 64 % 64, 128 + cp % 64]

/-- UTF-8 encoding of a string. -/
def utf8Encode : Str → List Nat
  | [] => []
  | c :: cs => utf8EncodeChar c ++ utf8Encode cs

example : utf8DecodeLossy [104, 105] = [104, 105] := by decide
example : utf8DecodeLossy [206, 187] = [955] := by decide
example : utf8DecodeLossy [226, 130, 172] = [8364] := by decide
example : utf8DecodeLossy [240, 159, 146, 150] = [128150] := by decide
example : utf8DecodeLossy [255, 104] = [replChar, 104] := by decide
example : utf8DecodeLossy [206] = [replChar] := by decide
example : validUtf8 [206, 187] = true := by decide
example : validUtf8 [206] = false := by decide
example : validUtf8 [237, 160, 128] = false := by decide
example : validUtf8 [224, 128, 128] = false := by decide
example : validUtf8 [192, 175] = false := by decide
example : validUtf8 [244, 144, 128, 128] = false := by decide
example : utf8Encode [955] = [206, 187] := by decide
example : utf8Encode [104, 8364] = [104, 226, 130, 172] := by decide

/-! ### UTF-8 encode/decode agreement -/

theorem u8Start_ascii {b : Nat} (h : b < 128) : u8Start b = ([b], .start) := by
  rw [u8Start, if_pos h]

theorem u8Start_lead2 {b : Nat} (h : 194 ≤ b ∧ b ≤ 223) :
    u8Start b = ([], .expect 1 (b - 192) 128 191) := by
  unfold u8Start
  split_ifs <;> first | rfl | (exfalso; omega)

theorem u8Start_leadE0 {b : Nat} (h : b = 224) :
    u8Start b = ([], .expect 2 0 160 191) := by
  subst h
  rfl

theorem u8Start_leadE1 {b : Nat} (h : 225 ≤ b ∧ b ≤ 236) :
    u8Start b = ([], .expect 2 (b - 224) 128 191) := by
  unfold u8Start
  split_ifs <;> first | rfl | (exfalso; omega)

theorem u8Start_leadED {b : Nat} (h : b = 237) :
    u8Start b = ([], .expect 2 13 128 159) := by
  subst h
  rfl

theorem u8Start_leadEE {b : Nat} (h : 238 ≤ b ∧ b ≤ 239) :
    u8Start b = ([], .expect 2 (b - 224) 128 191) := by
  unfold u8Start
  split_ifs <;> first | rfl | (exfalso; omega)

theorem u8Start_leadF0 {b : Nat} (h : b = 240) :
    u8Start b = ([], .expect 3 0 144 191) := by
  subst h
  rfl

theorem u8Start_leadF1 {b : Nat} (h : 241 ≤ b ∧ b ≤ 243) :
    u8Start b = ([], .expect 3 (b - 240) 128 191) := by
  unfold u8Start
  split_ifs <;> first | rfl | (exfalso; omega)

theorem u8Start_leadF4 {b : Nat} (h : b = 244) :
    u8Start b = ([], .expect 3 4 128 143) := by
  subst h
  rfl

theorem u8Loop_start_step (b : Nat) (rest : List Nat) :
    u8Loop .start (b :: rest) = (u8Start b).1 ++ u8Loop (u8Start b).2 rest := rfl

theorem u8Loop_cont_final {b lo hi : Nat} (acc : Nat) (rest : List Nat)
    (h : lo ≤ b ∧ b ≤ hi) :
    u8Loop (.expect 1 acc lo hi) (b :: rest)
      = (acc * 64 + (b - 128)) :: u8Loop .start rest := by
  rw [u8Loop, if_pos h, if_pos (by omega)]

theorem u8Loop_cont_more {n b lo hi : Nat} (acc : Nat) (rest : List Nat)
    (h : lo ≤ b ∧ b ≤ hi) :
    u8Loop (.expect (n + 2) acc lo hi) (b :: rest)
      = u8Loop (.expect (n + 1) (acc * 64 + (b - 128)) 128 191) rest := by
  rw [u8Loop, if_pos h, if_neg (by omega)]
  norm_num

theorem u8LoopStrict_ascii {b : Nat} (rest : List Nat) (h : b < 128) :
    u8LoopStrict .start (b :: rest)
      = (u8LoopStrict .start rest).map (fun s => b :: s) := by
  rw [u8LoopStrict, if_pos h]

theorem u8LoopStrict_lead2 {b : Nat} (rest : List Nat) (h : 194 ≤ b ∧ b ≤ 223) :
    u8LoopStrict .start (b :: rest)
      = u8LoopStrict (.expect 1 (b - 192) 128 191) rest := by
  rw [u8LoopStrict]
  split_ifs <;> first | rfl | (exfalso; omega)

theorem u8LoopStrict_leadE0 {b : Nat} (rest : List Nat) (h : b = 224) :
    u8LoopStrict .start (b :: rest) = u8LoopStrict (.expect 2 0 160 191) rest := by
  subst h
  rfl

theorem u8LoopStrict_leadE1 {b : Nat} (rest : List Nat) (h : 225 ≤ b ∧ b ≤ 236) :
    u8LoopStrict .start (b :: rest)
      = u8LoopStrict (.expect 2 (b - 224) 128 191) rest := by
  rw [u8LoopStrict]
  split_ifs <;> first | rfl | (exfalso; omega)

theorem u8LoopStrict_leadED {b : Nat} (rest : List Nat) (h : b = 237) :
    u8LoopStrict .start (b :: rest) = u8LoopStrict (.expect 2 13 128 159) rest := by
  subst h
  rfl

theorem u8LoopStrict_leadEE {b : Nat} (rest : List Nat) (h : 238 ≤ b ∧ b ≤ 239) :
    u8LoopStrict .start (b :: rest)
      = u8LoopStrict (.expect 2 (b - 224) 128 191) rest := by
  rw [u8LoopStrict]
  split_ifs <;> first | rfl | (exfalso; omega)

theorem u8LoopStrict_leadF0 {b : Nat} (rest : List Nat) (h : b = 240) :
    u8LoopStrict .start (b :: rest) = u8LoopStrict (.expect 3 0 144 191) rest := by
  subst h
  rfl

theorem u8LoopStrict_leadF1 {b : Nat} (rest : List Nat) (h : 241 ≤ b ∧ b ≤ 243) :
    u8LoopStrict .start (b :: rest)
      = u8LoopStrict (.expect 3 (b - 240) 128 191) rest := by
  rw [u8LoopStrict]
  split_ifs <;> first | rfl | (exfalso; omega)

theorem u8LoopStrict_leadF4 {b : Nat} (rest : List Nat) (h : b = 244) :
    u8LoopStrict .start (b :: rest) = u8LoopStrict (.expect 3 4 128 143) rest := by
  subst h
  rfl

theorem u8LoopStrict_cont_final {b lo hi : Nat} (acc : Nat) (rest : List Nat)
    (h : lo ≤ b ∧ b ≤ hi) :
    u8LoopStrict (.expect 1 acc lo hi) (b :: rest)
      = (u8LoopStrict .start rest).map (fun s => (acc * 64 + (b - 128)) :: s) := by
  rw [u8LoopStrict, if_pos h, if_pos (by omega)]

theorem u8LoopStrict_cont_more {n b lo hi : Nat} (acc : Nat) (rest : List Nat)
    (h : lo ≤ b ∧ b ≤ hi) :
    u8LoopStrict (.expect (n + 2) acc lo hi) (b :: rest)
      = u8LoopStrict (.expect (n + 1) (acc * 64 + (b - 128)) 128 191) rest := by
  rw [u8LoopStrict, if_pos h, if_neg (by omega)]
  norm_num

/-- Strict decoding inverts the encoding of a valid scalar at the head. -/
theorem u8LoopStrict_encodeChar (cp : Nat) (h : ValidScalar cp) (rest : List Nat) :
    u8LoopStrict .start (utf8EncodeChar cp ++ rest)
      = (u8LoopStrict .start rest).map (fun s => cp :: s) := by
  unfold ValidScalar at h
  rcases Nat.lt_or_ge cp 128 with h1 | h1
  · rw [utf8EncodeChar, if_pos h1]
    simp only [List.cons_append, List.nil_append]
    exact u8LoopStrict_ascii rest h1
  · rcases Nat.lt_or_ge cp 2048 with h2 | h2
    · rw [utf8EncodeChar, if_neg (by omega), if_pos h2]
      simp only [List.cons_append, List.nil_append]
      simp (disch := omega) only [u8LoopStrict_lead2, u8LoopStrict_cont_final]
      congr 1
      funext s
      simp only [List.cons.injEq, and_true]
      omega
    · rcases Nat.lt_or_ge cp 65536 with h3 | h3
      · rw [utf8EncodeChar, if_neg (by omega), if_neg (by omega), if_pos h3]
        simp only [List.cons_append, List.nil_append]
        rcases Nat.lt_or_ge cp 4096 with h4 | h4
        · simp (disch := omega) only [u8LoopStrict_leadE0, u8LoopStrict_cont_more,
            u8LoopStrict_cont_final, Nat.reduceAdd]
          congr 1
          funext s
          simp only [List.cons.injEq, and_true]
          omega
        · rcases Nat.lt_or_ge cp 53248 with h5 | h5
          · simp (disch := omega) only [u8LoopStrict_leadE1, u8LoopStrict_cont_more,
              u8LoopStrict_cont_final, Nat.reduceAdd]
            congr 1
            funext s
            simp only [List.cons.injEq, and_true]
            omega
          · rcases Nat.lt_or_ge cp 55296 with h6 | h6
            · simp (disch := omega) only [u8LoopStrict_leadED, u8LoopStrict_cont_more,
                u8LoopStrict_cont_final, Nat.reduceAdd]
              congr 1
              funext s
              simp only [List.cons.injEq, and_true]
              omega
            · simp (disch := omega) only [u8LoopStrict_leadEE, u8LoopStrict_cont_more,
                u8LoopStrict_cont_final, Nat.reduceAdd]
              congr 1
              funext s
              simp only [List.cons.injEq, and_true]
              omega
      · have h7 : cp < 1114112 := by omega
        rw [utf8EncodeChar, if_neg (by omega), if_neg (by omega), if_neg (by omega)]
        simp only [List.cons_append, List.nil_append]
        rcases Nat.lt_or_ge cp 262144 with h8 | h8
        · simp (disch := omega) only [u8LoopStrict_leadF0, u8LoopStrict_cont_more,
            u8LoopStrict_cont_final, Nat.reduceAdd]
          congr 1
          funext s
          simp only [List.cons.injEq, and_true]
          omega
        · rcases Nat.lt_or_ge cp 1048576 with h9 | h9
          · simp (disch := omega) only [u8LoopStrict_leadF1, u8LoopStrict_cont_more,
              u8LoopStrict_cont_final, Nat.reduceAdd]
            congr 1
            funext s
            simp only [List.cons.injEq, and_true]
            omega
          · simp (disch := omega) only [u8LoopStrict_leadF4, u8LoopStrict_cont_more,
              u8LoopStrict_cont_final, Nat.reduceAdd]
            congr 1
            funext s
            simp only [List.cons.injEq, and_true]
            omega

/-- Lossy decoding inverts the encoding of a valid scalar at the head. -/
theorem u8Loop_encodeChar (cp : Nat) (h : ValidScalar cp) (rest : List Nat) :
    u8Loop .start (utf8EncodeChar cp ++ rest) = cp :: u8Loop .start rest := by
  unfold ValidScalar at h
  rcases Nat.lt_or_ge cp 128 with h1 | h1
  · rw [utf8EncodeChar, if_pos h1]
    simp only [List.cons_append, List.nil_append, u8Loop_start_step]
    rw [u8Start_ascii h1]
    simp
  · rcases Nat.lt_or_ge cp 2048 with h2 | h2
    · rw [utf8EncodeChar, if_neg (by omega), if_pos h2]
      simp only [List.cons_append, List.nil_append, u8Loop_start_step]
      rw [u8Start_lead2 (by omega)]
      simp (disch := omega) only [u8Loop_cont_final, Nat.reduceAdd, List.nil_append]
      congr 1
      omega
    · rcases Nat.lt_or_ge cp 65536 with h3 | h3
      · rw [utf8EncodeChar, if_neg (by omega), if_neg (by omega), if_pos h3]
        simp only [List.cons_append, List.nil_append, u8Loop_start_step]
        rcases Nat.lt_or_ge cp 4096 with h4 | h4
        · rw [u8Start_leadE0 (by omega)]
          simp (disch := omega) only [u8Loop_cont_more, u8Loop_cont_final, Nat.reduceAdd,
            List.nil_append]
          congr 1
          omega
        · rcases Nat.lt_or_ge cp 53248 with h5 | h5
          · rw [u8Start_leadE1 (by omega)]
            simp (disch := omega) only [u8Loop_cont_more, u8Loop_cont_final, Nat.reduceAdd,
              List.nil_append]
            congr 1
            omega
          · rcases Nat.lt_or_ge cp 55296 with h6 | h6
            · rw [u8Start_leadED (by omega)]
              simp (disch := omega) only [u8Loop_cont_more, u8Loop_cont_final, Nat.reduceAdd,
                List.nil_append]
              congr 1
              omega
            · rw [u8Start_leadEE (by omega)]
              simp (disch := omega) only [u8Loop_cont_more, u8Loop_cont_final, Nat.reduceAdd,
                List.nil_append]
              congr 1
              omega
      · have h7 : cp < 1114112 := by omega
        rw [utf8EncodeChar, if_neg (by omega), if_neg (by omega), if_neg (by omega)]
        simp only [List.cons_append, List.nil_append, u8Loop_start_step]
        rcases Nat.lt_or_ge cp 262144 with h8 | h8
        · rw [u8Start_leadF0 (by omega)]
          simp (disch := omega) only [u8Loop_cont_more, u8Loop_cont_final, Nat.reduceAdd,
            List.nil_append]
          congr 1
          omega
        · rcases Nat.lt_or_ge cp 1048576 with h9 | h9
          · rw [u8Start_leadF1 (by omega)]
            simp (disch := omega) only [u8Loop_cont_more, u8Loop_cont_final, Nat.reduceAdd,
              List.nil_append]
            congr 1
            omega
          · rw [u8Start_leadF4 (by omega)]
            simp (disch := omega) only [u8Loop_cont_more, u8Loop_cont_final, Nat.reduceAdd,
              List.nil_append]
            congr 1
            omega

/-- Strict decoding inverts the encoding of any valid-scalar string. -/
theorem utf8DecodeStrict_encode (s : Str) (h : ∀ c ∈ s, ValidScalar c) :
    utf8DecodeStrict (utf8Encode s) = some s := by
  unfold utf8DecodeStrict
  induction s with
  | nil => rfl
  | cons c cs ih =>
    rw [utf8Encode, u8LoopStrict_encodeChar c (h c (by simp)),
      ih (fun x hx => h x (by simp [hx]))]
    rfl

/-- The encoding of a valid-scalar string is well-formed UTF-8. -/
theorem validUtf8_encode (s : Str) (h : ∀ c ∈ s, ValidScalar c) :
    validUtf8 (utf8Encode s) = true := by
  rw [validUtf8, utf8DecodeStrict_encode s h]
  rfl

/-- Lossy decoding inverts the encoding of any valid-scalar string. -/
theorem utf8DecodeLossy_encode (s : Str) (h : ∀ c ∈ s, ValidScalar c) :
    utf8DecodeLossy (utf8Encode s) = s := by
  unfold utf8DecodeLossy
  induction s with
  | nil => rfl
  | cons c cs ih =>
    rw [utf8Encode, u8Loop_encodeChar c (h c (by simp)),
      ih (fun x hx => h x (by simp [hx]))]

/-- The replacement character is a Unicode scalar value. -/
theorem validScalar_replChar : ValidScalar replChar := by
  unfold ValidScalar replChar
  omega

/-- An `expect` state from which every admissible completion yields a Unicode
scalar value. -/
def GoodExpect : Nat → Nat → Nat → Nat → Prop
  | 0, _, _, _ => False
  | 1, acc, lo, hi => ∀ b, lo ≤ b → b ≤ hi → ValidScalar (acc * 64 + (b - 128))
  | n + 2, acc, lo, hi => ∀ b, lo ≤ b → b ≤ hi → GoodExpect (n + 1) (acc * 64 + (b - 128)) 128 191

/-- A decoder state from which every emitted character is a scalar value. -/
def GoodState : U8State → Prop
  | .start => True
  | .expect need acc lo hi => GoodExpect need acc lo hi

/-- Processing one byte that is not a valid leading byte emits a replacement
character. -/
theorem u8Start_bad {b : Nat} (h1 : ¬ b < 128) (h2 : ¬ (194 ≤ b ∧ b ≤ 223))
    (h3 : ¬ b = 224) (h4 : ¬ (225 ≤ b ∧ b ≤ 236)) (h5 : ¬ b = 237)
    (h6 : ¬ (238 ≤ b ∧ b ≤ 239)) (h7 : ¬ b = 240) (h8 : ¬ (241 ≤ b ∧ b ≤ 243))
    (h9 : ¬ b = 244) : u8Start b = ([replChar], .start) := by
  unfold u8Start
  split_ifs
  rfl

/-- Processing one byte at a sequence boundary emits only scalar values and
reaches a good state. -/
theorem u8Start_good (b : Nat) :
    (∀ c ∈ (u8Start b).1, ValidScalar c) ∧ GoodState (u8Start b).2 := by
  by_cases h1 : b < 128
  · rw [u8Start_ascii h1]
    refine ⟨fun c hc => ?_, trivial⟩
    rw [List.mem_singleton] at hc
    subst hc
    unfold ValidScalar
    omega
  by_cases h2 : 194 ≤ b ∧ b ≤ 223
  · rw [u8Start_lead2 h2]
    refine ⟨by simp, ?_⟩
    show GoodExpect 1 (b - 192) 128 191
    intro b1 hl1 hh1
    unfold ValidScalar
    omega
  by_cases h3 : b = 224
  · rw [u8Start_leadE0 h3]
    refine ⟨by simp, ?_⟩
    show GoodExpect 2 0 160 191
    intro b1 hl1 hh1 b2 hl2 hh2
    unfold ValidScalar
    omega
  by_cases h4 : 225 ≤ b ∧ b ≤ 236
  · rw [u8Start_leadE1 h4]
    refine ⟨by simp, ?_⟩
    show GoodExpect 2 (b - 224) 128 191
    intro b1 hl1 hh1 b2 hl2 hh2
    unfold ValidScalar
    omega
  by_cases h5 : b = 237
  · rw [u8Start_leadED h5]
    refine ⟨by simp, ?_⟩
    show GoodExpect 2 13 128 159
    intro b1 hl1 hh1 b2 hl2 hh2
    unfold ValidScalar
    omega
  by_cases h6 : 238 ≤ b ∧ b ≤ 239
  · rw [u8Start_leadEE h6]
    refine ⟨by simp, ?_⟩
    show GoodExpect 2 (b - 224) 128 191
    intro b1 hl1 hh1 b2 hl2 hh2
    unfold ValidScalar
    omega
  by_cases h7 : b = 240
  · rw [u8Start_leadF0 h7]
    refine ⟨by simp, ?_⟩
    show GoodExpect 3 0 144 191
    intro b1 hl1 hh1 b2 hl2 hh2 b3 hl3 hh3
    unfold ValidScalar
    omega
  by_cases h8 : 241 ≤ b ∧ b ≤ 243
  · rw [u8Start_leadF1 h8]
    refine ⟨by simp, ?_⟩
    show GoodExpect 3 (b - 240) 128 191
    intro b1 hl1 hh1 b2 hl2 hh2 b3 hl3 hh3
    unfold ValidScalar
    omega
  by_cases h9 : b = 244
  · rw [u8Start_leadF4 h9]
    refine ⟨by simp, ?_⟩
    show GoodExpect 3 4 128 143
    intro b1 hl1 hh1 b2 hl2 hh2 b3 hl3 hh3
    unfold ValidScalar
    omega
  · rw [u8Start_bad h1 h2 h3 h4 h5 h6 h7 h8 h9]
    refine ⟨fun c hc => ?_, trivial⟩
    rw [List.mem_singleton] at hc
    subst hc
    exact validScalar_replChar

/-- From a good state, the lossy decoding loop emits only scalar values. -/
theorem u8Loop_valid (bs : List Nat) : ∀ st, GoodState st → ∀ c ∈ u8Loop st bs, ValidScalar c := by
  induction bs with
  | nil =>
    intro st _ c hc
    cases st with
    | start => simp [u8Loop] at hc
    | expect need acc lo hi =>
      rw [u8Loop, List.mem_singleton] at hc
      subst hc
      exact validScalar_replChar
  | cons b rest ih =>
    intro st hst c hc
    cases st with
    | start =>
      rw [u8Loop_start_step] at hc
      rcases List.mem_append.mp hc with hc | hc
      · exact (u8Start_good b).1 c hc
      · exact ih _ (u8Start_good b).2 c hc
    | expect need acc lo hi =>
      rw [u8Loop] at hc
      by_cases hb : lo ≤ b ∧ b ≤ hi
      · rw [if_pos hb] at hc
        by_cases hn : need ≤ 1
        · rw [if_pos hn] at hc
          rcases List.mem_cons.mp hc with rfl | hc
          · cases need with
            | zero => exact absurd hst (by simp [GoodState, GoodExpect])
            | succ n =>
              cases n with
              | zero => exact hst b hb.1 hb.2
              | succ m => exact absurd hn (by omega)
          · exact ih U8State.start (by rw [GoodState]; trivial) c hc
        · rw [if_neg hn] at hc
          obtain ⟨n, rfl⟩ : ∃ n, need = n + 2 := ⟨need - 2, by omega⟩
          have hgood : GoodState (.expect (n + 2 - 1) (acc * 64 + (b - 128)) 128 191) := by
            rw [show n + 2 - 1 = n + 1 by omega]
            exact hst b hb.1 hb.2
          exact ih _ hgood c hc
      · rw [if_neg hb] at hc
        rcases List.mem_cons.mp hc with rfl | hc
        · exact validScalar_replChar
        · rcases List.mem_append.mp hc with hc | hc
          · exact (u8Start_good b).1 c hc
          · exact ih _ (u8Start_good b).2 c hc

/-- Every character produced by lossy decoding is a Unicode scalar value. -/
theorem utf8DecodeLossy_valid (bs : List Nat) : ∀ c ∈ utf8DecodeLossy bs, ValidScalar c :=
  u8Loop_valid bs .start trivial

/-- Re-encoding the lossy decoding of an ill-formed byte sequence cannot give
back that sequence. -/
theorem utf8Encode_decodeLossy_ne (bs : List Nat) (h : validUtf8 bs = false) :
    utf8Encode (utf8DecodeLossy bs) ≠ bs := by
  intro he
  have hv : validUtf8 (utf8Encode (utf8DecodeLossy bs)) = true :=
    validUtf8_encode _ (utf8DecodeLossy_valid bs)
  rw [he, h] at hv
  exact Bool.false_ne_true hv

/-! ## The library model (`src/lib.rs`)

The execution methods take the builder by mutable reference in the source
(`&mut self`); they are modelled in state-passing style, returning the method
result together with the builder state after the call. The OS primitives
(`Command::spawn`, `Child::wait`, `Command::output`) are external
collaborators; their outcomes for one execution are supplied by a `ProcWorld`
environment, and per the collaborator contract they leave the configured
program and arguments unchanged. -/

/-- An OS-level I/O error (`std::io::Error`), carried opaquely. -/
abbrev IoError := Nat

/-- A process exit status (`std::process::ExitStatus`): whether it reports
success, and the numeric exit code when the process exited normally (`none`
when it was terminated by a signal). -/
structure ExitStatus where
  success : Bool
  code : Option Int
deriving DecidableEq, Repr

/-- Captured output of a finished process (`std::process::Output`). -/
structure Output where
  status : ExitStatus
  stdout : List Nat
  stderr : List Nat
deriving DecidableEq, Repr

/-- Model of `std::process::Command`: the configured program name and ordered
argument list. Other process attributes (environment, working directory,
stream redirection) affect no property verified here and are omitted. -/
structure Command where
  program : OsStr
  args : List OsStr
deriving DecidableEq, Repr

/-- Modelled from the spec: `Command::new` configures a program with no
arguments. -/
def Command.new (program : OsStr) : Command := ⟨program, []⟩

/-- Modelled from the spec: `Command::args` appends arguments in order. -/
def Command.addArgs (c : Command) (as : List OsStr) : Command :=
  { c with args := c.args ++ as }

/-- The outcomes of the OS process primitives for one execution: whether
`spawn` succeeds, what `wait` returns, and what `output` returns. -/
structure ProcWorld where
  spawnRes : Except IoError Unit
  waitRes : Except IoError ExitStatus
  outputRes : Except IoError Output
deriving Repr

/-- `EasyCommand`: the builder wrapping a `Command`. -/
structure EasyCommand where
  inner : Command
deriving DecidableEq, Repr

/-- `EasyCommand::new_with`: construct, then apply a customization to the
underlying configuration. -/
def EasyCommand.new_with (cmd : OsStr) (f : Command → Command) : EasyCommand :=
  ⟨f (Command.new cmd)⟩

/-- `EasyCommand::new`: `new_with` with the identity customization. -/
def EasyCommand.new (cmd : OsStr) : EasyCommand :=
  EasyCommand.new_with cmd (fun c => c)

/-- `EasyCommand::simple`: `new_with` appending the given arguments. -/
def EasyCommand.simple (cmd : OsStr) (args : List OsStr) : EasyCommand :=
  EasyCommand.new_with cmd (fun c => c.addArgs args)

/-- The shell-quoted invocation string shared by `Display for EasyCommand`
and `EasyCommandInvocation::new`: the program name and the arguments, each
lossily UTF-8 decoded, joined by the shell-word collaborator. -/
def EasyCommand.shellWords (c : EasyCommand) : Str :=
  shellJoin ((c.inner.program :: c.inner.args).map utf8DecodeLossy)

/-- `Display for EasyCommand`: the shell-quoted invocation, in backticks. -/
def EasyCommand.display (c : EasyCommand) : Str :=
  [btChar] ++ c.shellWords ++ [btChar]

/-- `EasyCommandInvocation`: the snapshot of the shell-quoted invocation
stored in errors. -/
structure EasyCommandInvocation where
  shell_words : Str
deriving DecidableEq, Repr

/-- `EasyCommandInvocation::new`: snapshot the shell-quoted invocation. -/
def EasyCommandInvocation.new (cmd : EasyCommand) : EasyCommandInvocation :=
  ⟨cmd.shellWords⟩

/-- `Display for EasyCommandInvocation`: the stored string, with no
backticks. -/
def EasyCommandInvocation.display (i : EasyCommandInvocation) : Str :=
  i.shell_words

/-- `ExecuteError`: an invocation snapshot paired with the mode-specific
source error. -/
structure ExecuteError (E : Type) where
  cmd : EasyCommandInvocation
  source : E
deriving DecidableEq, Repr

/-- `ExecuteError::new`: snapshot the command and pair it with the source. -/
def ExecuteError.new {E : Type} (cmd : EasyCommand) (source : E) : ExecuteError E :=
  ⟨EasyCommandInvocation.new cmd, source⟩

/-- Code points of a literal ASCII string. -/
def strCps (s : String) : Str := s.toList.map Char.toNat

/-- `Display for ExecuteError` (from its `thiserror` attribute): the literal
text "failed to execute " followed by the display of the invocation
snapshot. -/
def ExecuteError.display {E : Type} (e : ExecuteError E) : Str :=
  strCps "failed to execute " ++ e.cmd.display

/-- `SpawnAndWaitErrorKind`: the error cases of `spawn_and_wait`. -/
inductive SpawnAndWaitErrorKind
  | Spawn (source : IoError)
  | WaitForExitCode (source : IoError)
deriving DecidableEq, Repr

/-- `RunErrorKind`: the error cases of `run`. -/
inductive RunErrorKind
  | SpawnAndWait (k : SpawnAndWaitErrorKind)
  | UnsuccessfulExitCode (code : Option Int)
deriving DecidableEq, Repr

/-- Modelled from the spec: `Command::spawn` starts the process (outcome
supplied by the environment) and leaves the configuration unchanged. -/
def Command.spawnPrim (c : Command) (w : ProcWorld) : Except IoError Unit × Command :=
  (w.spawnRes, c)

/-- Modelled from the spec: `Child::wait` blocks until the process exits
(outcome supplied by the environment). -/
def Child.waitPrim (w : ProcWorld) : Except IoError ExitStatus := w.waitRes

/-- Modelled from the spec: `Command::output` runs the process with captured
output (outcome supplied by the environment) and leaves the configuration
unchanged. -/
def Command.outputPrim (c : Command) (w : ProcWorld) : Except IoError Output × Command :=
  (w.outputRes, c)

/-- `EasyCommand::spawn_and_wait_impl`: spawn, then wait, tagging each
failure with its stage; log statements omitted. -/
def EasyCommand.spawn_and_wait_impl (c : EasyCommand) (w : ProcWorld) :
    Except SpawnAndWaitErrorKind ExitStatus × EasyCommand :=
  match Command.spawnPrim c.inner w with
  | (.error e, inner1) => (.error (.Spawn e), ⟨inner1⟩)
  | (.ok _, inner1) =>
    match Child.waitPrim w with
    | .error e => (.error (.WaitForExitCode e), ⟨inner1⟩)
    | .ok status => (.ok status, ⟨inner1⟩)

/-- `EasyCommand::spawn_and_wait`: `spawn_and_wait_impl` with failures
wrapped by `ExecuteError::new`. -/
def EasyCommand.spawn_and_wait (c : EasyCommand) (w : ProcWorld) :
    Except (ExecuteError SpawnAndWaitErrorKind) ExitStatus × EasyCommand :=
  match c.spawn_and_wait_impl w with
  | (.error kind, c1) => (.error (ExecuteError.new c1 kind), c1)
  | (.ok status, c1) => (.ok status, c1)

/-- `EasyCommand::run_impl`: spawn-and-wait, then judge the exit status. -/
def EasyCommand.run_impl (c : EasyCommand) (w : ProcWorld) :
    Except RunErrorKind Unit × EasyCommand :=
  match c.spawn_and_wait_impl w with
  | (.error kind, c1) => (.error (.SpawnAndWait kind), c1)
  | (.ok status, c1) =>
    if status.success then (.ok (), c1)
    else (.error (.UnsuccessfulExitCode status.code), c1)

/-- `EasyCommand::run`: `run_impl` with failures wrapped by
`ExecuteError::new`. -/
def EasyCommand.run (c : EasyCommand) (w : ProcWorld) :
    Except (ExecuteError RunErrorKind) Unit × EasyCommand :=
  match c.run_impl w with
  | (.error kind, c1) => (.error (ExecuteError.new c1 kind), c1)
  | (.ok _, c1) => (.ok (), c1)

/-- `EasyCommand::output_impl`: run with captured output; log statements
omitted. -/
def EasyCommand.output_impl (c : EasyCommand) (w : ProcWorld) :
    Except IoError Output × EasyCommand :=
  match Command.outputPrim c.inner w with
  | (res, inner1) => (res, ⟨inner1⟩)

/-- `EasyCommand::output`: `output_impl` with failures wrapped by
`ExecuteError::new`. -/
def EasyCommand.output (c : EasyCommand) (w : ProcWorld) :
    Except (ExecuteError IoError) Output × EasyCommand :=
  match c.output_impl w with
  | (.error e, c1) => (.error (ExecuteError.new c1 e), c1)
  | (.ok o, c1) => (.ok o, c1)

/-! ### Behaviour of the execution methods by world shape -/

/-- `spawn_and_wait`, fully cased on the primitive outcomes. -/
theorem spawn_and_wait_spec (c : EasyCommand) (w : ProcWorld) :
    c.spawn_and_wait w =
      (match w.spawnRes, w.waitRes with
       | .error e, _ => (.error (ExecuteError.new c (.Spawn e)), c)
       | .ok _, .error e => (.error (ExecuteError.new c (.WaitForExitCode e)), c)
       | .ok _, .ok st => (.ok st, c)) := by
  obtain ⟨sr, wr, orr⟩ := w
  cases sr <;> cases wr <;> rfl

/-- `spawn_and_wait_impl`, fully cased on the primitive outcomes. -/
theorem spawn_and_wait_impl_spec (c : EasyCommand) (w : ProcWorld) :
    c.spawn_and_wait_impl w =
      (match w.spawnRes, w.waitRes with
       | .error e, _ => (.error (.Spawn e), c)
       | .ok _, .error e => (.error (.WaitForExitCode e), c)
       | .ok _, .ok st => (.ok st, c)) := by
  obtain ⟨sr, wr, orr⟩ := w
  cases sr <;> cases wr <;> rfl

/-- `run`, fully cased on the primitive outcomes and the exit status. -/
theorem run_spec (c : EasyCommand) (w : ProcWorld) :
    c.run w =
      (match w.spawnRes, w.waitRes with
       | .error e, _ => (.error (ExecuteError.new c (.SpawnAndWait (.Spawn e))), c)
       | .ok _, .error e => (.error (ExecuteError.new c (.SpawnAndWait (.WaitForExitCode e))), c)
       | .ok _, .ok st =>
         if st.success then (.ok (), c)
         else (.error (ExecuteError.new c (.UnsuccessfulExitCode st.code)), c)) := by
  obtain ⟨sr, wr, orr⟩ := w
  cases sr <;> cases wr <;> try rfl
  case mk.ok.ok st =>
    obtain ⟨su, code⟩ := st
    cases su <;> rfl

/-- `output`, fully cased on the primitive outcome. -/
theorem output_spec (c : EasyCommand) (w : ProcWorld) :
    c.output w =
      (match w.outputRes with
       | .error e => (.error (ExecuteError.new c e), c)
       | .ok o => (.ok o, c)) := by
  obtain ⟨sr, wr, orr⟩ := w
  cases orr <;> rfl

/-! ## Claims -/

/-- C1: for every execution method (`spawn_and_wait`, `run`, `output`) and
every failure of that method, the error returned to the caller contains the
exact shell-quoted invocation configured on the builder at the time of the
call; no error escapes without this context. -/
theorem C1_every_error_carries_invocation (c : EasyCommand) (w : ProcWorld) :
    (∀ e, (c.spawn_and_wait w).1 = .error e → e.cmd.shell_words = c.shellWords) ∧
    (∀ e, (c.run w).1 = .error e → e.cmd.shell_words = c.shellWords) ∧
    (∀ e, (c.output w).1 = .error e → e.cmd.shell_words = c.shellWords) := by
  obtain ⟨sr, wr, orr⟩ := w
  refine ⟨fun e he => ?_, fun e he => ?_, fun e he => ?_⟩
  · rw [spawn_and_wait_spec] at he
    cases sr with
    | error ioe =>
      simp at he
      subst he
      rfl
    | ok u =>
      cases wr with
      | error ioe =>
        simp at he
        subst he
        rfl
      | ok st => simp at he
  · rw [run_spec] at he
    cases sr with
    | error ioe =>
      simp at he
      subst he
      rfl
    | ok u =>
      cases wr with
      | error ioe =>
        simp at he
        subst he
        rfl
      | ok st =>
        obtain ⟨su, code⟩ := st
        cases su with
        | false =>
          simp at he
          subst he
          rfl
        | true => simp at he
  · rw [output_spec] at he
    cases orr with
    | error ioe =>
      simp at he
      subst he
      rfl
    | ok o => simp at he

/-- Witness for C1 at a concrete builder and a spawn failure. -/
theorem C1_witness :
    ((EasyCommand.simple [99, 112] [[97]]).spawn_and_wait
        ⟨.error 5, .ok ⟨true, some 0⟩, .error 5⟩).1
      = .error (ExecuteError.new (EasyCommand.simple [99, 112] [[97]])
          (.Spawn 5)) ∧
    (ExecuteError.new (EasyCommand.simple [99, 112] [[97]])
        (SpawnAndWaitErrorKind.Spawn 5)).cmd.shell_words
      = (EasyCommand.simple [99, 112] [[97]]).shellWords :=
  ⟨rfl,
   (C1_every_error_carries_invocation (EasyCommand.simple [99, 112] [[97]])
       ⟨.error 5, .ok ⟨true, some 0⟩, .error 5⟩).1
     (ExecuteError.new (EasyCommand.simple [99, 112] [[97]]) (.Spawn 5)) rfl⟩

/-- C3: `run` succeeds with no value exactly when the exit status reports
success; an unsuccessful exit status yields an `UnsuccessfulExitCode` error
carrying the observed exit code (`some n` for a normal exit with code `n`,
`none` when no code is available). -/
theorem C3_run_judges_exit_status (c : EasyCommand) (w : ProcWorld) (st : ExitStatus)
    (hs : w.spawnRes = .ok ()) (hw : w.waitRes = .ok st) :
    ((c.run w).1 = .ok () ↔ st.success = true) ∧
    (st.success = false →
      (c.run w).1 = .error (ExecuteError.new c (.UnsuccessfulExitCode st.code))) := by
  rw [run_spec, hs, hw]
  obtain ⟨su, code⟩ := st
  cases su <;> simp

/-- Witness for C3 at a process exiting with code 7. -/
theorem C3_witness :
    (((EasyCommand.new [99, 112]).run
        ⟨.ok (), .ok ⟨false, some 7⟩, .error 0⟩).1
      = .error (ExecuteError.new (EasyCommand.new [99, 112])
          (.UnsuccessfulExitCode (some 7)))) :=
  (C3_run_judges_exit_status (EasyCommand.new [99, 112])
      ⟨.ok (), .ok ⟨false, some 7⟩, .error 0⟩ ⟨false, some 7⟩ rfl rfl).2 rfl

/-- C4: `spawn_and_wait` returns the raw exit status unmodified exactly when
spawning and waiting both succeed (success of the status is not judged),
fails with a `Spawn` kind exactly when the process could not be started, and
fails with a `WaitForExitCode` kind exactly when waiting failed, each kind
carrying the underlying OS error. -/
theorem C4_spawn_and_wait_raw (c : EasyCommand) (w : ProcWorld) :
    (∀ st, (c.spawn_and_wait w).1 = .ok st ↔
      w.spawnRes = .ok () ∧ w.waitRes = .ok st) ∧
    (∀ e, (c.spawn_and_wait w).1 = .error (ExecuteError.new c (.Spawn e)) ↔
      w.spawnRes = .error e) ∧
    (∀ e, (c.spawn_and_wait w).1
        = .error (ExecuteError.new c (.WaitForExitCode e)) ↔
      w.spawnRes = .ok () ∧ w.waitRes = .error e) := by
  obtain ⟨sr, wr, orr⟩ := w
  rw [spawn_and_wait_spec]
  cases sr <;> cases wr <;>
    simp [ExecuteError.new, EasyCommandInvocation.new]

/-- Witness for C4: an unsuccessful raw status is returned unmodified. -/
theorem C4_witness :
    ((EasyCommand.new [99, 112]).spawn_and_wait
        ⟨.ok (), .ok ⟨false, some 3⟩, .error 0⟩).1
      = .ok ⟨false, some 3⟩ :=
  ((C4_spawn_and_wait_raw (EasyCommand.new [99, 112])
      ⟨.ok (), .ok ⟨false, some 3⟩, .error 0⟩).1 ⟨false, some 3⟩).mpr ⟨rfl, rfl⟩

/-- C6: every failure of the internal spawn-and-wait stage is propagated to
`run`'s caller with the same kind and OS error (wrapped in the
`SpawnAndWait` case), and `RunErrorKind` is a closed union of exactly the
wrapped spawn-and-wait error and `UnsuccessfulExitCode`. -/
theorem C6_run_propagates_spawn_and_wait (c : EasyCommand) (w : ProcWorld) :
    (∀ k, (c.spawn_and_wait_impl w).1 = .error k →
      (c.run w).1 = .error (ExecuteError.new c (.SpawnAndWait k))) ∧
    (∀ rk : RunErrorKind,
      (∃ k, rk = .SpawnAndWait k) ∨ (∃ oc, rk = .UnsuccessfulExitCode oc)) := by
  constructor
  · intro k hk
    rw [spawn_and_wait_impl_spec] at hk
    rw [run_spec]
    obtain ⟨sr, wr, orr⟩ := w
    cases sr with
    | error ioe =>
      simp at hk
      subst hk
      rfl
    | ok u =>
      cases wr with
      | error ioe =>
        simp at hk
        subst hk
        rfl
      | ok st => simp at hk
  · intro rk
    cases rk with
    | SpawnAndWait k => exact Or.inl ⟨k, rfl⟩
    | UnsuccessfulExitCode oc => exact Or.inr ⟨oc, rfl⟩

/-- Witness for C6 at a concrete wait failure. -/
theorem C6_witness :
    ((EasyCommand.new [99, 112]).run ⟨.ok (), .error 9, .error 0⟩).1
      = .error (ExecuteError.new (EasyCommand.new [99, 112])
          (.SpawnAndWait (.WaitForExitCode 9))) :=
  (C6_run_propagates_spawn_and_wait (EasyCommand.new [99, 112])
      ⟨.ok (), .error 9, .error 0⟩).1 (.WaitForExitCode 9) rfl

/-- C7: `new`, `new_with` with the identity customization, and `simple` with
no arguments produce builders with identical rendered invocation strings. -/
theorem C7_constructors_agree (p : OsStr) :
    (EasyCommand.new p).shellWords = (EasyCommand.new_with p (fun c => c)).shellWords ∧
    (EasyCommand.new p).shellWords = (EasyCommand.simple p []).shellWords ∧
    (EasyCommand.new p).display = (EasyCommand.new_with p (fun c => c)).display ∧
    (EasyCommand.new p).display = (EasyCommand.simple p []).display := by
  refine ⟨rfl, ?_, rfl, ?_⟩ <;>
    simp [EasyCommand.new, EasyCommand.new_with, EasyCommand.simple, Command.addArgs,
      Command.new, EasyCommand.shellWords, EasyCommand.display]

/-- C8: `output` returns the whole captured result (status plus both
buffers) on success, and on any failure wraps the single undifferentiated
OS-level error with the invocation snapshot. -/
theorem C8_output_single_error (c : EasyCommand) (w : ProcWorld) :
    (∀ o, w.outputRes = .ok o → (c.output w).1 = .ok o) ∧
    (∀ e : IoError, w.outputRes = .error e →
      (c.output w).1 = .error (ExecuteError.new c e)) := by
  rw [output_spec]
  constructor
  · intro o ho
    rw [ho]
  · intro e he
    rw [he]

/-- Witness for C8 at a concrete captured output. -/
theorem C8_witness :
    ((EasyCommand.new [99, 112]).output
        ⟨.ok (), .ok ⟨true, some 0⟩, .ok ⟨⟨true, some 0⟩, [104, 105], []⟩⟩).1
      = .ok ⟨⟨true, some 0⟩, [104, 105], []⟩ :=
  (C8_output_single_error (EasyCommand.new [99, 112])
      ⟨.ok (), .ok ⟨true, some 0⟩, .ok ⟨⟨true, some 0⟩, [104, 105], []⟩⟩).1
    ⟨⟨true, some 0⟩, [104, 105], []⟩ rfl

/-- C10: every execution method leaves the builder (its configured program
and arguments, hence its rendered invocation string) unchanged, whether the
call succeeds or fails, so the builder can be reused. -/
theorem C10_methods_preserve_builder (c : EasyCommand) (w : ProcWorld) :
    (c.spawn_and_wait w).2 = c ∧ (c.run w).2 = c ∧ (c.output w).2 = c := by
  obtain ⟨sr, wr, orr⟩ := w
  refine ⟨?_, ?_, ?_⟩
  · cases sr <;> cases wr <;> rfl
  · cases sr <;> cases wr <;> try rfl
    rename_i u st
    obtain ⟨su, code⟩ := st
    cases su <;> rfl
  · cases orr <;> rfl

/-- Mapping encode over the lossy decodings of encoded valid-scalar strings
is the identity. -/
theorem map_lossy_encode (ts : List Str) (h : ∀ t ∈ ts, ∀ cp ∈ t, ValidScalar cp) :
    (ts.map utf8Encode).map utf8DecodeLossy = ts := by
  induction ts with
  | nil => rfl
  | cons t ts ih =>
    simp only [List.map_cons]
    rw [utf8DecodeLossy_encode t (h t (by simp)),
      ih (fun u hu a ha => h u (by simp [hu]) a ha)]

/-- C2: re-tokenizing the rendered invocation of a builder configured with a
non-empty program name and any argument strings yields exactly the original
program name followed by the original arguments in order (arguments given as
Unicode strings, entering the builder UTF-8 encoded). -/
theorem C2_roundtrip (prog : Str) (args : List Str) (_hne : prog ≠ [])
    (hv : ∀ t ∈ prog :: args, ∀ cp ∈ t, ValidScalar cp) :
    shellSplit ((EasyCommand.simple (utf8Encode prog) (args.map utf8Encode)).shellWords)
      = some (prog :: args) := by
  have hw : (EasyCommand.simple (utf8Encode prog) (args.map utf8Encode)).shellWords
      = shellJoin ((utf8Encode prog :: args.map utf8Encode).map utf8DecodeLossy) := by
    simp [EasyCommand.shellWords, EasyCommand.simple, EasyCommand.new_with,
      Command.new, Command.addArgs]
  rw [hw, List.map_cons, utf8DecodeLossy_encode prog (hv prog (by simp)),
    map_lossy_encode args (fun u hu a ha => hv u (by simp [hu]) a ha),
    shellSplit_shellJoin]

/-- Witness for C2 with arguments containing a space and quote characters. -/
theorem C2_witness :
    shellSplit ((EasyCommand.simple (utf8Encode [99, 112])
        ([[97, 32, 98], [39, 988, 39]].map utf8Encode)).shellWords)
      = some [[99, 112], [97, 32, 98], [39, 988, 39]] :=
  C2_roundtrip [99, 112] [[97, 32, 98], [39, 988, 39]] (by decide) (by decide)

/-- C5 as stated is false: the displayed message of an execution error does
not enclose the invocation in backticks (only `Display for EasyCommand`
does; the snapshot stored in errors displays bare). At a concrete spawn
failure of the program "cp", the message is "failed to execute cp", not
"failed to execute `cp`". -/
theorem C5_counterexample :
    ((EasyCommand.new [99, 112]).spawn_and_wait
        ⟨.error 3, .ok ⟨true, some 0⟩, .error 3⟩).1
      = .error (ExecuteError.new (EasyCommand.new [99, 112]) (.Spawn 3)) ∧
    (ExecuteError.new (EasyCommand.new [99, 112])
        (SpawnAndWaitErrorKind.Spawn 3)).display
      = strCps "failed to execute cp" ∧
    strCps "failed to execute cp" ≠ strCps "failed to execute `cp`" := by
  refine ⟨rfl, by decide, by decide⟩

/-- C5 (amended): for every failing call of any execution method, the
error's displayed message is exactly the text "failed to execute " followed
by the bare shell-quoted invocation (no backticks), and the error is exactly
the invocation snapshot paired with the mode-specific kind as its nested
source. -/
theorem C5_amended_display (c : EasyCommand) (w : ProcWorld) :
    (∀ e, (c.spawn_and_wait w).1 = .error e →
      e.display = strCps "failed to execute " ++ c.shellWords ∧
      e = ExecuteError.new c e.source) ∧
    (∀ e, (c.run w).1 = .error e →
      e.display = strCps "failed to execute " ++ c.shellWords ∧
      e = ExecuteError.new c e.source) ∧
    (∀ e, (c.output w).1 = .error e →
      e.display = strCps "failed to execute " ++ c.shellWords ∧
      e = ExecuteError.new c e.source) := by
  obtain ⟨sr, wr, orr⟩ := w
  refine ⟨fun e he => ?_, fun e he => ?_, fun e he => ?_⟩
  · rw [spawn_and_wait_spec] at he
    cases sr with
    | error ioe =>
      simp at he
      subst he
      exact ⟨rfl, rfl⟩
    | ok u =>
      cases wr with
      | error ioe =>
        simp at he
        subst he
        exact ⟨rfl, rfl⟩
      | ok st => simp at he
  · rw [run_spec] at he
    cases sr with
    | error ioe =>
      simp at he
      subst he
      exact ⟨rfl, rfl⟩
    | ok u =>
      cases wr with
      | error ioe =>
        simp at he
        subst he
        exact ⟨rfl, rfl⟩
      | ok st =>
        obtain ⟨su, code⟩ := st
        cases su with
        | false =>
          simp at he
          subst he
          exact ⟨rfl, rfl⟩
        | true => simp at he
  · rw [output_spec] at he
    cases orr with
    | error ioe =>
      simp at he
      subst he
      exact ⟨rfl, rfl⟩
    | ok o => simp at he

/-- Witness for the amended C5 at a concrete spawn failure. -/
theorem C5_witness :
    (ExecuteError.new (EasyCommand.new [99, 112])
        (SpawnAndWaitErrorKind.Spawn 3)).display
      = strCps "failed to execute "
          ++ (EasyCommand.new [99, 112]).shellWords ∧
    ExecuteError.new (EasyCommand.new [99, 112]) (SpawnAndWaitErrorKind.Spawn 3)
      = ExecuteError.new (EasyCommand.new [99, 112])
          (ExecuteError.new (EasyCommand.new [99, 112])
            (SpawnAndWaitErrorKind.Spawn 3)).source :=
  (C5_amended_display (EasyCommand.new [99, 112])
      ⟨.error 3, .ok ⟨true, some 0⟩, .error 3⟩).1
    (ExecuteError.new (EasyCommand.new [99, 112]) (.Spawn 3)) rfl

/-- If mapping a function over a list gives back the list, the function
fixes every member. -/
theorem map_eq_self_mem {α : Type} (f : α → α) :
    ∀ l : List α, l.map f = l → ∀ x ∈ l, f x = x := by
  intro l
  induction l with
  | nil =>
    intro _ x hx
    simp at hx
  | cons a l ih =>
    intro h x hx
    rw [List.map_cons] at h
    injection h with h1 h2
    rcases List.mem_cons.mp hx with rfl | hx
    · exact h1
    · exact ih h2 x hx

/-- C9: the rendered invocation (both the `Display` form and the snapshot
stored in errors) is the shell-join of the lossy UTF-8 decodings of the
program name and arguments; consequently, whenever some configured token is
not valid UTF-8, re-tokenizing the rendered invocation cannot recover the
original tokens. -/
theorem C9_lossy_rendering (c : EasyCommand) :
    c.display = [btChar]
        ++ shellJoin ((c.inner.program :: c.inner.args).map utf8DecodeLossy)
        ++ [btChar] ∧
    (EasyCommandInvocation.new c).shell_words
      = shellJoin ((c.inner.program :: c.inner.args).map utf8DecodeLossy) ∧
    (∀ t ∈ c.inner.program :: c.inner.args, validUtf8 t = false →
      ∀ recovered,
        shellSplit (EasyCommandInvocation.new c).shell_words = some recovered →
        recovered.map utf8Encode ≠ c.inner.program :: c.inner.args) := by
  refine ⟨rfl, rfl, ?_⟩
  intro t ht hinv recovered hrec hEq
  rw [show (EasyCommandInvocation.new c).shell_words
      = shellJoin ((c.inner.program :: c.inner.args).map utf8DecodeLossy) from rfl,
    shellSplit_shellJoin] at hrec
  injection hrec with hrec
  subst hrec
  rw [List.map_map] at hEq
  exact utf8Encode_decodeLossy_ne t hinv
    (map_eq_self_mem _ _ hEq t ht)

/-- Witness for C9: a builder whose program name is the ill-formed byte
sequence [255] renders via the replacement character, and re-encoding the
recovered tokens does not give back the original bytes. -/
theorem C9_witness :
    [[replChar]].map utf8Encode
      ≠ (EasyCommand.new [255]).inner.program :: (EasyCommand.new [255]).inner.args :=
  (C9_lossy_rendering (EasyCommand.new [255])).2.2 [255] (by decide) (by decide)
    [[replChar]] (by decide)
